import Mathlib

/-!
A shallow embedding in Lean of the EML parser module of the
obsidian-eml-to-markdown plugin, together with theorems settling the frozen
claims C1-C10 about it.

Modelling conventions:
* JS strings are modelled as `List Char` (UTF-16 code units; all inputs of
  interest stay in the basic plane, where a code unit is a code point).
* Node `Buffer` values are modelled as `List Nat` with every element < 256.
* JS regular expressions are modelled by a small backtracking matcher (`RM`)
  whose alternative results are ordered exactly as a JS engine explores them
  (greedy quantifiers try the longest run first); `head?` of the result list
  is therefore the JS match.
* Code that can raise an uncaught exception is modelled in `Option`:
  `none` means an exception escapes.  The only uncaught throw site in the
  parser is `decodeURIComponent` inside `getFilename` (a URIError on a
  malformed percent escape); every other `try/catch` in the source wraps an
  operation that cannot throw, so those catch branches are dead code and the
  corresponding model is total.
* `new Date(s)` never throws in JS and always returns a Date object
  (possibly an Invalid Date whose timestamp is NaN); it is modelled by an
  arbitrary total function `dateParse : List Char → JSDate` that `parseEml`
  receives as a parameter.
* Recursive procedures that rescan derived substrings carry a `Nat` fuel
  argument so that they are structurally recursive and compute by `rfl`;
  every caller passes the length of the string being scanned, which is
  sufficient because each step consumes at least one character, so the
  fuel-exhausted branches are unreachable.
-/

set_option maxRecDepth 100000

namespace Eml

/-- Convenience: the character list of a string literal. -/
def cs (s : String) : List Char := s.toList

/-- The JS whitespace class used by `String.prototype.trim` and regex `\s`. -/
def isJsWs (c : Char) : Bool :=
  let n := c.toNat
  n == 9 || n == 10 || n == 11 || n == 12 || n == 13 || n == 32 || n == 160 ||
    n == 0x1680 || (decide (0x2000 ≤ n) && decide (n ≤ 0x200A)) || n == 0x2028 ||
    n == 0x2029 || n == 0x202F || n == 0x205F || n == 0x3000 || n == 0xFEFF

/-- `String.prototype.trim`. -/
def jsTrim (s : List Char) : List Char :=
  ((s.dropWhile isJsWs).reverse.dropWhile isJsWs).reverse

/-- ASCII fragment of `String.prototype.toLowerCase`, applied characterwise.
(The full JS function also folds non-ASCII letters; no non-ASCII character
lower-cases to any character of the ASCII prefixes and keywords compared
against in this parser, so the ASCII fragment is faithful here.) -/
def asciiLowerChar (c : Char) : Char :=
  if 'A' ≤ c ∧ c ≤ 'Z' then Char.ofNat (c.toNat + 32) else c

/-- `String.prototype.toLowerCase` (ASCII fragment, see `asciiLowerChar`). -/
def toLowerJS (s : List Char) : List Char := s.map asciiLowerChar

/-- `s.startsWith pat` on character lists (`String.prototype.startsWith`). -/
def startsWithL : List Char → List Char → Bool
  | _, [] => true
  | [], _ :: _ => false
  | c :: s, p :: ps => c == p && startsWithL s ps

/-- Case-insensitive (ASCII) variant of `startsWithL`. -/
def ciStarts : List Char → List Char → Bool
  | _, [] => true
  | [], _ :: _ => false
  | c :: s, p :: ps => (asciiLowerChar c == asciiLowerChar p) && ciStarts s ps

/-- `String.prototype.includes`: `containsSub hay needle`. -/
def containsSub : List Char → List Char → Bool
  | [], needle => needle == ([] : List Char)
  | h :: t, needle => startsWithL (h :: t) needle || containsSub t needle

/-- Value of a hexadecimal digit character, if it is one. -/
def hexVal (c : Char) : Option Nat :=
  let n := c.toNat
  if 48 ≤ n ∧ n ≤ 57 then some (n - 48)
  else if 65 ≤ n ∧ n ≤ 70 then some (n - 55)
  else if 97 ≤ n ∧ n ≤ 102 then some (n - 87)
  else none

/-! ### A tiny backtracking regex matcher

`RM α` is a matcher that, run on an input suffix, returns the list of
possible (result, remaining-input) pairs in the order a backtracking JS
regex engine would try them.  The head of the list is the JS match. -/

abbrev RM (α : Type) : Type := List Char → List (α × List Char)

def rmPure {α : Type} (a : α) : RM α := fun s => [(a, s)]

def rmBind {α β : Type} (m : RM α) (f : α → RM β) : RM β :=
  fun s => ((m s).map (fun p => f p.1 p.2)).flatten

instance : Monad RM where
  pure := rmPure
  bind := rmBind

/-- Match one character satisfying `p`. -/
def rmSat (p : Char → Bool) : RM Char := fun s =>
  match s with
  | [] => []
  | c :: rest => if p c then [(c, rest)] else []

/-- Match a literal character sequence. -/
def rmStr (pat : List Char) : RM Unit := fun s =>
  if startsWithL s pat then [((), s.drop pat.length)] else []

/-- Match a literal character sequence, ASCII-case-insensitively (flag `i`). -/
def rmStrCI (pat : List Char) : RM Unit := fun s =>
  if ciStarts s pat then [((), s.drop pat.length)] else []

/-- `X?` for a single character class: greedily try consuming first. -/
def rmOptSat (p : Char → Bool) : RM Unit := fun s =>
  match s with
  | [] => [((), [])]
  | c :: rest => if p c then [((), rest), ((), c :: rest)] else [((), c :: rest)]

/-- `(?:lit)?` for a literal, case-insensitively: greedily try consuming. -/
def rmOptStrCI (pat : List Char) : RM Unit := fun s =>
  if ciStarts s pat then [((), s.drop pat.length), ((), s)] else [((), s)]

/-- `[p]*`, greedy: alternatives from the longest run down to the empty one. -/
def rmStarGreedy (p : Char → Bool) : RM (List Char) := fun s =>
  let run := s.takeWhile p
  ((List.range (run.length + 1)).reverse).map (fun k => (run.take k, s.drop k))

/-- `[p]+`, greedy: alternatives from the longest run down to a single char. -/
def rmPlusGreedy (p : Char → Bool) : RM (List Char) := fun s =>
  let run := s.takeWhile p
  ((List.range run.length).reverse).map (fun k => (run.take (k + 1), s.drop (k + 1)))

/-- `$`: succeed only at the end of the input. -/
def rmEnd : RM Unit := fun s =>
  match s with
  | [] => [((), [])]
  | _ :: _ => []

/-- Run a matcher anchored at the start (`^...`); the JS match is the first
alternative that succeeds. -/
def rmRun {α : Type} (m : RM α) (s : List Char) : Option α :=
  ((m s).head?).map (·.1)

/-- Unanchored first match: try the matcher at each position, left to right
(the semantics of `String.prototype.match` without `^`). -/
def rmFind {α : Type} (m : RM α) : List Char → Option α
  | [] => ((m []).head?).map (·.1)
  | c :: rest =>
    match (m (c :: rest)).head? with
    | some p => some p.1
    | none => rmFind m rest

/-- Global regex replace with a computed replacement (`String.prototype.replace`
with the `g` flag and a function): scan left to right, at each position take
the match if there is one, emit its replacement and continue after it,
otherwise copy one character.  Fuel-structural; all patterns used consume at
least one character, so fuel equal to the input length is sufficient. -/
def rmReplaceGo (m : RM (List Char)) : Nat → List Char → List Char
  | _, [] => []
  | 0, s => s
  | Nat.succ fuel, c :: rest =>
    match (m (c :: rest)).head? with
    | some (rep, rest') => rep ++ rmReplaceGo m fuel rest'
    | none => c :: rmReplaceGo m fuel rest

def rmReplaceAll (m : RM (List Char)) (s : List Char) : List Char :=
  rmReplaceGo m s.length s

/-! ### Byte-level decoders -/

/-- The `=XX` escape-expansion loop shared by the quoted-printable decoder and
the Q-encoded MIME-word decoder (the source duplicates the identical loop):
`=` followed by two hex digits becomes one byte, any other character pushes
its UTF-16 code unit, truncated to a byte by `Buffer.from`. -/
def qpExpand : List Char → List Nat
  | '=' :: a :: b :: rest =>
    match hexVal a, hexVal b with
    | some ha, some hb => (ha * 16 + hb) :: qpExpand rest
    | _, _ => 61 :: qpExpand (a :: b :: rest)
  | c :: rest => (c.toNat % 256) :: qpExpand rest
  | [] => []

/-- `str.replace(/=\r?\n/g, '')`: removal of quoted-printable soft line
breaks, scanning left to right. -/
def removeSoftBreaks : List Char → List Char
  | '=' :: '\r' :: '\n' :: rest => removeSoftBreaks rest
  | '=' :: '\n' :: rest => removeSoftBreaks rest
  | c :: rest => c :: removeSoftBreaks rest
  | [] => []

/-- The replacement character U+FFFD. -/
def replChar : Char := Char.ofNat 0xFFFD

def utf8Cont2Lo (b : Nat) : Nat := if b = 0xE0 then 0xA0 else 0x80
def utf8Cont2Hi (b : Nat) : Nat := if b = 0xED then 0x9F else 0xBF
def utf8Cont3Lo (b : Nat) : Nat := if b = 0xF0 then 0x90 else 0x80
def utf8Cont3Hi (b : Nat) : Nat := if b = 0xF4 then 0x8F else 0xBF

/-- Lossy UTF-8 decoding of a byte sequence, WHATWG style (what Node's
`buffer.toString('utf-8')` performs): maximal invalid subparts are replaced
by U+FFFD and decoding resumes at the offending byte; it never fails. -/
def utf8Go : List Nat → List Char
  | [] => []
  | b :: rest =>
    if b < 0x80 then Char.ofNat b :: utf8Go rest
    else if 0xC2 ≤ b ∧ b ≤ 0xDF then
      match rest with
      | [] => [replChar]
      | b2 :: rest2 =>
        if 0x80 ≤ b2 ∧ b2 ≤ 0xBF then
          Char.ofNat ((b - 0xC0) * 64 + (b2 - 0x80)) :: utf8Go rest2
        else replChar :: utf8Go (b2 :: rest2)
    else if 0xE0 ≤ b ∧ b ≤ 0xEF then
      match rest with
      | [] => [replChar]
      | b2 :: rest2 =>
        if utf8Cont2Lo b ≤ b2 ∧ b2 ≤ utf8Cont2Hi b then
          match rest2 with
          | [] => [replChar]
          | b3 :: rest3 =>
            if 0x80 ≤ b3 ∧ b3 ≤ 0xBF then
              Char.ofNat ((b - 0xE0) * 4096 + (b2 - 0x80) * 64 + (b3 - 0x80)) :: utf8Go rest3
            else replChar :: utf8Go (b3 :: rest3)
        else replChar :: utf8Go (b2 :: rest2)
    else if 0xF0 ≤ b ∧ b ≤ 0xF4 then
      match rest with
      | [] => [replChar]
      | b2 :: rest2 =>
        if utf8Cont3Lo b ≤ b2 ∧ b2 ≤ utf8Cont3Hi b then
          match rest2 with
          | [] => [replChar]
          | b3 :: rest3 =>
            if 0x80 ≤ b3 ∧ b3 ≤ 0xBF then
              match rest3 with
              | [] => [replChar]
              | b4 :: rest4 =>
                if 0x80 ≤ b4 ∧ b4 ≤ 0xBF then
                  Char.ofNat ((b - 0xF0) * 262144 + (b2 - 0x80) * 4096 +
                    (b3 - 0x80) * 64 + (b4 - 0x80)) :: utf8Go rest4
                else replChar :: utf8Go (b4 :: rest4)
            else replChar :: utf8Go (b3 :: rest3)
        else replChar :: utf8Go (b2 :: rest2)
    else replChar :: utf8Go rest

/-- `buffer.toString('utf-8')`. -/
def utf8Lossy (bytes : List Nat) : List Char := utf8Go bytes

/-- Source `decodeQuotedPrintableToBuffer`: remove soft line breaks, then run
the shared `=XX` expansion loop and collect the bytes. -/
def decodeQuotedPrintableToBuffer (s : List Char) : List Nat :=
  qpExpand (removeSoftBreaks s)

/-- Source `decodeQuotedPrintable`: the buffer decoder followed by UTF-8
interpretation.  (The source wraps `buffer.toString('utf-8')` in `try/catch`,
but that call never throws in Node, so the catch branch is dead.) -/
def decodeQuotedPrintable (s : List Char) : List Char :=
  utf8Lossy (decodeQuotedPrintableToBuffer s)

/-- Sextet value of a base64 alphabet character. -/
def b64Val (c : Char) : Option Nat :=
  let n := c.toNat
  if 65 ≤ n ∧ n ≤ 90 then some (n - 65)
  else if 97 ≤ n ∧ n ≤ 122 then some (n - 97 + 26)
  else if 48 ≤ n ∧ n ≤ 57 then some (n - 48 + 52)
  else if n = 43 then some 62
  else if n = 47 then some 63
  else none

/-- Decode groups of sextets into bytes; a trailing group of 2 or 3 sextets
yields 1 or 2 bytes, a lone trailing sextet yields nothing. -/
def b64Go : List Nat → List Nat
  | a :: b :: c :: d :: rest =>
    (a * 4 + b / 16) :: ((b % 16) * 16 + c / 4) :: ((c % 4) * 64 + d) :: b64Go rest
  | [a, b, c] => [a * 4 + b / 16, (b % 16) * 16 + c / 4]
  | [a, b] => [a * 4 + b / 16]
  | _ => []

/-- Node's forgiving `Buffer.from(s, 'base64')`: decoding stops at the first
`=` and skips characters outside the base64 alphabet. -/
def b64Decode (s : List Char) : List Nat :=
  b64Go ((s.takeWhile (fun c => !(c == '='))).filterMap b64Val)

/-- Source `decodeBase64` (text mode): strip whitespace, base64-decode,
interpret as UTF-8.  `Buffer.from(_, 'base64')` never throws, so the
source's catch branch is dead and the model is total. -/
def decodeBase64 (s : List Char) : List Char :=
  utf8Lossy (b64Decode (s.filter (fun c => !isJsWs c)))

/-! ### MIME encoded words -/

/-- An apostrophe character (used in regex literals below). -/
def qchar : Char := Char.ofNat 39

/-- Decode the payload of one MIME encoded word given its encoding letter:
`B` is base64 + UTF-8, `Q` turns `_` into spaces and runs the shared `=XX`
expansion loop, then UTF-8.  Any other letter cannot occur (the regex only
matches B or Q); the source then returns the match unchanged, which the
last arm mirrors. -/
def decodeMimeWordPayload (enc : Char) (payload : List Char) (whole : List Char) :
    List Char :=
  if asciiLowerChar enc == 'b' then utf8Lossy (b64Decode payload)
  else if asciiLowerChar enc == 'q' then
    utf8Lossy (qpExpand (payload.map (fun c => if c == '_' then ' ' else c)))
  else whole

/-- The regex `=\?([^?]+)\?([BQ])\?([^?]+)\?=` (flags `gi`) with its
replacement function, as one RM producing the replacement text. -/
def mimeWordRM : RM (List Char) := fun s0 => (do
  _ ← rmStr (cs "=?")
  _ ← rmPlusGreedy (fun c => !(c == '?'))
  _ ← rmSat (fun c => c == '?')
  let enc ← rmSat (fun c => asciiLowerChar c == 'b' || asciiLowerChar c == 'q')
  _ ← rmSat (fun c => c == '?')
  let payload ← rmPlusGreedy (fun c => !(c == '?'))
  _ ← rmStr (cs "?=")
  (fun s1 => [(decodeMimeWordPayload enc payload (s0.take (s0.length - s1.length)), s1)])) s0

/-- Source `decodeMimeWord`: global replacement of encoded words.  The
decoders it calls are total (Node's base64 never throws), so the source's
catch branch returning the original match is dead except for the
unreachable non-B/Q encoding arm. -/
def decodeMimeWord (s : List Char) : List Char := rmReplaceAll mimeWordRM s

/-! ### decodeURIComponent

ECMA-262 `Decode`: `%XX` escapes are collected into bytes and strictly
UTF-8-decoded; any malformation (missing or non-hex digits, bad leading or
continuation byte, overlong form, surrogate or out-of-range code point)
throws a URIError, modelled as `none`. -/

/-- Read `n` continuation-byte escapes `%XX` with `0x80 ≤ XX ≤ 0xBF`. -/
def duriCont : Nat → List Char → Option (List Nat × List Char)
  | 0, s => some ([], s)
  | Nat.succ n, '%' :: h1 :: h2 :: rest =>
    match hexVal h1, hexVal h2 with
    | some a, some b =>
      let byte := a * 16 + b
      if 0x80 ≤ byte ∧ byte ≤ 0xBF then
        match duriCont n rest with
        | some (bs, r) => some (byte :: bs, r)
        | none => none
      else none
    | _, _ => none
  | Nat.succ _, _ => none

/-- Continuation count, minimal code point and header-bit value of a UTF-8
leading byte (`none` for an invalid leading byte, which throws). -/
def utf8SeqInfo (b : Nat) : Option (Nat × Nat × Nat) :=
  if 0xC0 ≤ b ∧ b ≤ 0xDF then some (1, 0x80, b - 0xC0)
  else if 0xE0 ≤ b ∧ b ≤ 0xEF then some (2, 0x800, b - 0xE0)
  else if 0xF0 ≤ b ∧ b ≤ 0xF7 then some (3, 0x10000, b - 0xF0)
  else none

def duriGo : Nat → List Char → Option (List Char)
  | _, [] => some []
  | 0, _ :: _ => none
  | Nat.succ fuel, '%' :: rest =>
    match rest with
    | h1 :: h2 :: rest2 =>
      match hexVal h1, hexVal h2 with
      | some a, some b =>
        let byte := a * 16 + b
        if byte < 0x80 then
          match duriGo fuel rest2 with
          | some out => some (Char.ofNat byte :: out)
          | none => none
        else
          match utf8SeqInfo byte with
          | none => none
          | some (cnt, minCp, headVal) =>
            match duriCont cnt rest2 with
            | none => none
            | some (bs, rest3) =>
              let cp := bs.foldl (fun acc x => acc * 64 + (x - 0x80)) headVal
              if minCp ≤ cp ∧ cp ≤ 0x10FFFF ∧ ¬(0xD800 ≤ cp ∧ cp ≤ 0xDFFF) then
                match duriGo fuel rest3 with
                | some out => some (Char.ofNat cp :: out)
                | none => none
              else none
      | _, _ => none
    | _ => none
  | Nat.succ fuel, c :: rest =>
    match duriGo fuel rest with
    | some out => some (c :: out)
    | none => none

/-- `decodeURIComponent`, `none` modelling a thrown URIError. -/
def decodeURIComponentM (s : List Char) : Option (List Char) :=
  duriGo s.length s

/-! ### Header block parsing -/

/-- The regex `\r?\n[\t ]+` with replacement `' '` (header unfolding). -/
def unfoldRM : RM (List Char) := do
  _ ← rmOptSat (fun c => c == '\r')
  _ ← rmSat (fun c => c == '\n')
  _ ← rmPlusGreedy (fun c => c == '\t' || c == ' ')
  pure [' ']

/-- `split(/\r?\n/)`. -/
def splitLinesGo (cur : List Char) : List Char → List (List Char)
  | [] => [cur.reverse]
  | '\r' :: '\n' :: rest => cur.reverse :: splitLinesGo [] rest
  | '\n' :: rest => cur.reverse :: splitLinesGo [] rest
  | c :: rest => splitLinesGo (c :: cur) rest

def splitLines (s : List Char) : List (List Char) := splitLinesGo [] s

/-- Header maps are insertion-ordered key/value lists; `Map.set` appends and
`Map.get` (`hget`) returns the value of the last occurrence of the key,
which is exactly the JS `Map` overwrite semantics as far as `get` goes. -/
abbrev Headers : Type := List (List Char × List Char)

def hget (hs : Headers) (key : List Char) : Option (List Char) :=
  ((List.filter (fun p => p.1 == key) hs).getLast?).map (·.2)

/-- One line of the (already unfolded) header block: split at the first
colon; a line without a colon after position 0 is dropped. -/
def headerLineAdd (hs : Headers) (line : List Char) : Headers :=
  match line.findIdx? (fun c => c == ':') with
  | some ci =>
    if ci > 0 then
      hs ++ [(toLowerJS (jsTrim (line.take ci)),
              decodeMimeWord (jsTrim (line.drop (ci + 1))))]
    else hs
  | none => hs

/-- Source `parseHeaders`. -/
def parseHeaders (headerText : List Char) : Headers :=
  (splitLines (rmReplaceAll unfoldRM headerText)).foldl headerLineAdd []

/-! ### Content-type inspection -/

/-- JS `x || d` where `x` is an optional string: both `undefined` (the key
is absent) and the empty string (present but empty, e.g. a bare
`Content-Type:` header line) are falsy and give the default `d`. -/
def jsOr (o : Option (List Char)) (d : List Char) : List Char :=
  match o with
  | some v => if v == ([] : List Char) then d else v
  | none => d

/-- Source `getContentType`: MIME type before the first `;`, trimmed and
lower-cased, defaulting to `text/plain` (also when the header value is
present but empty, per JS `||`). -/
def getContentType (hs : Headers) : List Char :=
  toLowerJS (jsTrim ((jsOr (hget hs (cs "content-type"))
    (cs "text/plain")).takeWhile (fun c => !(c == ';'))))

/-- Source `getEncoding`: content-transfer-encoding, defaulting to `7bit`
(also when the header value is present but empty, per JS `||`). -/
def getEncoding (hs : Headers) : List Char :=
  toLowerJS (jsOr (hget hs (cs "content-transfer-encoding")) (cs "7bit"))

/-- The regex `boundary\s*=\s*"?([^";]+)"?` (flag `i`). -/
def boundaryRM : RM (List Char) := do
  _ ← rmStrCI (cs "boundary")
  _ ← rmStarGreedy isJsWs
  _ ← rmSat (fun c => c == '=')
  _ ← rmStarGreedy isJsWs
  _ ← rmOptSat (fun c => c == '"')
  let cap ← rmPlusGreedy (fun c => !(c == '"' || c == ';'))
  _ ← rmOptSat (fun c => c == '"')
  pure cap

/-- Source `extractBoundary`. -/
def extractBoundary (contentType : List Char) : Option (List Char) :=
  rmFind boundaryRM contentType

/-- The regex `filename\*?=\s*(?:utf-8'')?["']?([^"';\r\n]+)["']?` (flag `i`). -/
def filenameRM : RM (List Char) := do
  _ ← rmStrCI (cs "filename")
  _ ← rmOptSat (fun c => c == '*')
  _ ← rmSat (fun c => c == '=')
  _ ← rmStarGreedy isJsWs
  _ ← rmOptStrCI (cs "utf-8" ++ [qchar, qchar])
  _ ← rmOptSat (fun c => c == '"' || c == qchar)
  let cap ← rmPlusGreedy (fun c =>
    !(c == '"' || c == qchar || c == ';' || c == '\r' || c == '\n'))
  _ ← rmOptSat (fun c => c == '"' || c == qchar)
  pure cap

/-- The regex `name\s*=\s*"?([^";]+)"?` (flag `i`). -/
def nameRM : RM (List Char) := do
  _ ← rmStrCI (cs "name")
  _ ← rmStarGreedy isJsWs
  _ ← rmSat (fun c => c == '=')
  _ ← rmStarGreedy isJsWs
  _ ← rmOptSat (fun c => c == '"')
  let cap ← rmPlusGreedy (fun c => !(c == '"' || c == ';'))
  _ ← rmOptSat (fun c => c == '"')
  pure cap

/-- Source `getFilename`.  Outer `none` models the uncaught URIError that
`decodeURIComponent` can throw (there is no try/catch around it in the
source); `some none` is the source's `null` return. -/
def getFilename (hs : Headers) : Option (Option (List Char)) :=
  let disposition := (hget hs (cs "content-disposition")).getD []
  let contentType := (hget hs (cs "content-type")).getD []
  match rmFind filenameRM disposition with
  | some cap =>
    match decodeURIComponentM cap with
    | none => none
    | some dec => some (some (decodeMimeWord dec))
  | none =>
    match rmFind nameRM contentType with
    | some cap => some (some (decodeMimeWord cap))
    | none => some none

/-! ### Transfer decoding -/

/-- Source `decodeContent` (text mode). -/
def decodeContent (content : List Char) (encoding : List Char) : List Char :=
  if encoding == cs "base64" then decodeBase64 content
  else if encoding == cs "quoted-printable" then decodeQuotedPrintable content
  else content

/-- Source `decodeContentToBuffer` (binary mode); the default arm is
`Buffer.from(content, 'binary')`, one byte per UTF-16 code unit mod 256. -/
def decodeContentToBuffer (content : List Char) (encoding : List Char) : List Nat :=
  if encoding == cs "base64" then b64Decode (content.filter (fun c => !isJsWs c))
  else if encoding == cs "quoted-printable" then decodeQuotedPrintableToBuffer content
  else content.map (fun c => c.toNat % 256)

/-! ### Data model -/

structure EmailAddress where
  name : List Char
  address : List Char
  deriving DecidableEq, Repr

structure Attachment where
  filename : List Char
  contentType : List Char
  content : List Nat
  contentId : Option (List Char)
  deriving DecidableEq, Repr

/-- A JS `Date` object: either a valid timestamp (milliseconds) or the
Invalid Date (whose `getTime()` is NaN).  Both are objects, hence truthy
and distinct from `null`. -/
inductive JSDate
  | invalid
  | valid (ms : Int)
  deriving DecidableEq, Repr

structure ParsedEmail where
  from_ : List EmailAddress
  to_ : List EmailAddress
  cc : List EmailAddress
  bcc : List EmailAddress
  subject : List Char
  date : Option JSDate
  messageId : List Char
  textBody : List Char
  htmlBody : List Char
  attachments : List Attachment
  deriving DecidableEq, Repr

/-- The all-default `ParsedEmail` that `parseEml` starts from. -/
def emptyParsed : ParsedEmail :=
  ⟨[], [], [], [], [], none, [], [], [], []⟩

/-! ### Address parsing -/

/-- The regex `^"?([^"<]*)"?\s*<([^>]+)>$` of `parseEmailAddress`. -/
def addrRM : RM (List Char × List Char) := do
  _ ← rmOptSat (fun c => c == '"')
  let g1 ← rmStarGreedy (fun c => !(c == '"' || c == '<'))
  _ ← rmOptSat (fun c => c == '"')
  _ ← rmStarGreedy isJsWs
  _ ← rmSat (fun c => c == '<')
  let g2 ← rmPlusGreedy (fun c => !(c == '>'))
  _ ← rmSat (fun c => c == '>')
  _ ← rmEnd
  pure (g1, g2)

/-- `replace(/^"|"$/g, '')`: drop one leading and one trailing quote. -/
def stripEdgeQuotes (s : List Char) : List Char :=
  let s1 := match s with
    | '"' :: rest => rest
    | _ => s
  if s1.getLast? == some '"' then s1.dropLast else s1

/-- Source `parseEmailAddress`. -/
def parseEmailAddress (str : List Char) : EmailAddress :=
  let s := jsTrim str
  match rmRun addrRM s with
  | some (g1, g2) => ⟨stripEdgeQuotes (jsTrim g1), jsTrim g2⟩
  | none => ⟨[], s⟩

/-- The scanner state of `parseEmailAddresses`. -/
structure AddrScanState where
  current : List Char
  inQuotes : Bool
  inAngleBrackets : Bool
  addresses : List EmailAddress
  deriving DecidableEq, Repr

/-- One iteration of the `parseEmailAddresses` loop: `prev` is `str[i-1]`
(`none` at `i = 0`, where the JS comparison `undefined !== '\\'` is true).
The comma arm `continue`s, so the separator is not appended; every other
character is appended to `current` after the flag updates. -/
def addrScanStep (prev : Option Char) (c : Char) (st : AddrScanState) : AddrScanState :=
  if c == '"' && !(prev == some '\\') then
    { st with inQuotes := !st.inQuotes, current := st.current ++ [c] }
  else if c == '<' && !st.inQuotes then
    { st with inAngleBrackets := true, current := st.current ++ [c] }
  else if c == '>' && !st.inQuotes then
    { st with inAngleBrackets := false, current := st.current ++ [c] }
  else if c == ',' && !st.inQuotes && !st.inAngleBrackets then
    { st with
      addresses :=
        if jsTrim st.current == ([] : List Char) then st.addresses
        else st.addresses ++ [parseEmailAddress st.current],
      current := [] }
  else { st with current := st.current ++ [c] }

def addrScanGo : Option Char → List Char → AddrScanState → AddrScanState
  | _, [], st => st
  | prev, c :: rest, st => addrScanGo (some c) rest (addrScanStep prev c st)

/-- Source `parseEmailAddresses`. -/
def parseEmailAddresses (str : List Char) : List EmailAddress :=
  if str == ([] : List Char) then []
  else
    let fin := addrScanGo none str ⟨[], false, false, []⟩
    if jsTrim fin.current == ([] : List Char) then fin.addresses
    else fin.addresses ++ [parseEmailAddress fin.current]

/-! ### URL sanitizer -/

/-- Source `isSafeUrl`. -/
def isSafeUrl (url : List Char) : Bool :=
  let trimmed := toLowerJS (jsTrim url)
  startsWithL trimmed (cs "http://") || startsWithL trimmed (cs "https://") ||
    startsWithL trimmed (cs "mailto:") || startsWithL trimmed (cs "cid:")

/-- Source `sanitizeUrl`. -/
def sanitizeUrl (url : List Char) : List Char :=
  if isSafeUrl url then url else []

/-! ### Header/body split and multipart boundary split -/

/-- Length of the match of `\r?\n\r?\n` at the head of `s` (greedy, with the
backtracking order of the optional `\r`s), if any. -/
def blankAt : List Char → Option Nat
  | '\r' :: '\n' :: '\r' :: '\n' :: _ => some 4
  | '\r' :: '\n' :: '\n' :: _ => some 3
  | '\n' :: '\r' :: '\n' :: _ => some 3
  | '\n' :: '\n' :: _ => some 2
  | _ => none

/-- `text.search(/\r?\n\r?\n/)` followed by
`text.substring(0, i)` / `text.substring(i).replace(/^\r?\n\r?\n/, '')`:
`none` models a `search` result of -1 (no blank-line separator). -/
def splitHeaderBodyGo (acc : List Char) : List Char → Option (List Char × List Char)
  | [] => none
  | c :: rest =>
    match blankAt (c :: rest) with
    | some k => some (acc.reverse, (c :: rest).drop k)
    | none => splitHeaderBodyGo (c :: acc) rest

def splitHeaderBody (s : List Char) : Option (List Char × List Char) :=
  splitHeaderBodyGo [] s

/-- Length of the match of ``--boundary(?:--)?`` at the head of `s`
(greedy on the optional closing `--`). -/
def boundaryMatchLen (b s : List Char) : Option Nat :=
  if startsWithL s ('-' :: '-' :: b) then
    let k := 2 + b.length
    if startsWithL (s.drop k) (cs "--") then some (k + 2) else some k
  else none

/-- `bodyText.split(new RegExp(...))`: split at each non-overlapping match,
left to right; adjacent or trailing matches produce empty segments.
Fuel-structural; each scan step consumes at least one character. -/
def splitBoundaryGo (b : List Char) : Nat → List Char → List Char → List (List Char)
  | _, cur, [] => [cur.reverse]
  | 0, cur, s => [cur.reverse ++ s]
  | Nat.succ fuel, cur, c :: rest =>
    match boundaryMatchLen b (c :: rest) with
    | some k => cur.reverse :: splitBoundaryGo b fuel [] ((c :: rest).drop k)
    | none => splitBoundaryGo b fuel (c :: cur) rest

def splitOnBoundary (b s : List Char) : List (List Char) :=
  splitBoundaryGo b s.length [] s

/-! ### The MIME part walker -/

/-- The JS condition
`filename || disposition.includes('attachment') || (!ct.startsWith('text/') && !ct.startsWith('multipart/'))`
(note JS truthiness: a `''` filename is falsy). -/
def isAttachmentPart (fnOpt : Option (List Char)) (disposition contentType : List Char) :
    Bool :=
  (match fnOpt with
   | some f => !(f == ([] : List Char))
   | none => false) ||
  containsSub disposition (cs "attachment") ||
  (!startsWithL contentType (cs "text/") && !startsWithL contentType (cs "multipart/"))

/-- `filename || `attachment_${result.attachments.length + 1}``:
`count` is the length of the attachment list at the moment of the append. -/
def attachmentName (fnOpt : Option (List Char)) (count : Nat) : List Char :=
  match fnOpt with
  | some f =>
    if f == ([] : List Char) then cs "attachment_" ++ (Nat.repr (count + 1)).toList else f
  | none => cs "attachment_" ++ (Nat.repr (count + 1)).toList

/-- One step of the loop over boundary-split segments, parameterised by the
part parser `pm` (to break the mutual recursion with `parseMimePartF`):
a segment whose trim is empty or the literal `--` is skipped, any other is
parsed recursively; `none` (an exception in flight) short-circuits. -/
def partsStepG (pm : List Char → ParsedEmail → Option ParsedEmail)
    (acc : Option ParsedEmail) (seg : List Char) : Option ParsedEmail :=
  match acc with
  | none => none
  | some r =>
    let part := jsTrim seg
    if !(part == ([] : List Char)) && !(part == cs "--") then pm part r else some r

/-- Source `parseMimePart` (the unused `isTopLevel` parameter of the source
is omitted: it does not occur in the function's body).  Fuel-structural:
each recursion level strips at least the blank-line separator, so the
length of the argument decreases by at least two per level and fuel equal
to the initial string length is sufficient; the fuel-exhausted branch
returns the accumulator unchanged and is unreachable from `parseEml`. -/
def parseMimePartF : Nat → List Char → ParsedEmail → Option ParsedEmail
  | 0, _, result => some result
  | Nat.succ fuel, partText, result =>
    match splitHeaderBody partText with
    | none => some result
    | some (headerText, bodyText) =>
      let headers := parseHeaders headerText
      let contentType := getContentType headers
      let encoding := getEncoding headers
      if startsWithL contentType (cs "multipart/") then
        match extractBoundary ((hget headers (cs "content-type")).getD []) with
        | none => some result
        | some boundary =>
          let parts := splitOnBoundary boundary bodyText
          ((parts.drop 1).dropLast).foldl
            (partsStepG (fun pt r => parseMimePartF fuel pt r)) (some result)
      else if contentType == cs "text/plain" then
        let decoded := decodeContent bodyText encoding
        some (if result.textBody == ([] : List Char) then
          { result with textBody := decoded } else result)
      else if contentType == cs "text/html" then
        let decoded := decodeContent bodyText encoding
        some (if result.htmlBody == ([] : List Char) then
          { result with htmlBody := decoded } else result)
      else
        let disposition := (hget headers (cs "content-disposition")).getD []
        match getFilename headers with
        | none => none
        | some fnOpt =>
          if isAttachmentPart fnOpt disposition contentType then
            some { result with attachments := result.attachments ++
              [{ filename := attachmentName fnOpt result.attachments.length,
                 contentType := contentType,
                 content := decodeContentToBuffer bodyText encoding,
                 contentId := (hget headers (cs "content-id")).map
                   (fun v => v.filter (fun c => !(c == '<' || c == '>'))) }] }
          else some result

/-- The segment-loop step at a given fuel. -/
def partsStep (fuel : Nat) : Option ParsedEmail → List Char → Option ParsedEmail :=
  partsStepG (fun pt r => parseMimePartF fuel pt r)

/-- The population of the result object from the top-level headers in
`parseEml` (lines assigning `result.from` through `result.date`): the
address lists, subject, message id (angle brackets stripped) and the date
field, which — when the header is present and non-empty — holds the `Date`
object returned by `new Date`, whatever it is (`dateParse` models
`new Date`; the catch branch assigning `null` is dead because `new Date`
never throws).  Bodies and attachments start empty. -/
def topLevelResult (dateParse : List Char → JSDate) (headers : Headers) : ParsedEmail :=
  { from_ := parseEmailAddresses ((hget headers (cs "from")).getD [])
    to_ := parseEmailAddresses ((hget headers (cs "to")).getD [])
    cc := parseEmailAddresses ((hget headers (cs "cc")).getD [])
    bcc := parseEmailAddresses ((hget headers (cs "bcc")).getD [])
    subject := (hget headers (cs "subject")).getD []
    date := match hget headers (cs "date") with
      | some ds => if ds == ([] : List Char) then none else some (dateParse ds)
      | none => none
    messageId := ((hget headers (cs "message-id")).getD []).filter
      (fun c => !(c == '<' || c == '>'))
    textBody := []
    htmlBody := []
    attachments := [] }

/-- Source `parseEml`.  The only difference between the top-level segment
loop here (`for i = 1; i < parts.length`) and the nested one in
`parseMimePart` (`for i = 1; i < parts.length - 1`) is that the nested
loop also drops the trailing segment. -/
def parseEml (dateParse : List Char → JSDate) (content : List Char) :
    Option ParsedEmail :=
  match splitHeaderBody content with
  | none => some emptyParsed
  | some (headerText, bodyText) =>
    let headers := parseHeaders headerText
    let r1 : ParsedEmail := topLevelResult dateParse headers
    let contentType := getContentType headers
    let encoding := getEncoding headers
    if startsWithL contentType (cs "multipart/") then
      match extractBoundary ((hget headers (cs "content-type")).getD []) with
      | none => some r1
      | some boundary =>
        let parts := splitOnBoundary boundary bodyText
        (parts.drop 1).foldl (partsStep content.length) (some r1)
    else if contentType == cs "text/plain" then
      some { r1 with textBody := decodeContent bodyText encoding }
    else if contentType == cs "text/html" then
      some { r1 with htmlBody := decodeContent bodyText encoding }
    else some r1

/-- A fixed total stand-in for `new Date` used in closed statements: the
real JS `new Date` yields an Invalid Date exactly on unparseable strings,
and no theorem below depends on which strings those are. -/
def dpInvalid : List Char → JSDate := fun _ => JSDate.invalid

/-! ### Concrete documents used by the claims -/

/-- A multipart document one of whose parts carries a `Content-Disposition`
filename parameter that is a malformed percent escape (`%E0` starts a
three-byte UTF-8 sequence and nothing follows), so `decodeURIComponent`
throws a URIError inside `getFilename`. -/
def c1Input : List Char :=
  cs "Content-Type: multipart/mixed; boundary=b\n\n--b\nContent-Type: application/pdf\nContent-Disposition: attachment; filename=\"%E0\"\n\nX\n--b--"

/-- A `text/plain` leaf part that declares a filename and an `attachment`
disposition. -/
def c2Part : List Char :=
  cs "Content-Type: text/plain\nContent-Disposition: attachment; filename=x.txt\n\nhello"

/-- A top-level multipart document with a non-empty epilogue after the
closing boundary that is itself shaped like a `text/html` part. -/
def c3TopInput : List Char :=
  cs "Content-Type: multipart/mixed; boundary=b\n\n--b\nContent-Type: text/plain\n\nfirst\n--b--\nContent-Type: text/html\n\nepilogue-text"

def c3TopExpected : ParsedEmail :=
  { emptyParsed with textBody := cs "first", htmlBody := cs "epilogue-text" }

/-- A nested multipart whose inner split has no closing marker, so its last
segment is a genuine `text/html` part — which the nested loop discards. -/
def c3NestedInput : List Char :=
  cs "Content-Type: multipart/mixed; boundary=out\n\n--out\nContent-Type: multipart/alternative; boundary=in\n\n--in\nContent-Type: text/plain\n\ninner-one\n--in\nContent-Type: text/html\n\ninner-two\n--out--"

def c3NestedExpected : ParsedEmail :=
  { emptyParsed with textBody := cs "inner-one" }

/-- A document with a Date header that no date parser accepts. -/
def c4Input : List Char := cs "Date: garbage\n\nbody"

/-- Two `text/plain` parts; the first one's body decodes to the empty
string (base64 `====` decodes to no bytes), the second is non-empty. -/
def c6Input : List Char :=
  cs "Content-Type: multipart/alternative; boundary=b\n\n--b\nContent-Type: text/plain\nContent-Transfer-Encoding: base64\n\n====\n--b\nContent-Type: text/plain\n\nsecond\n--b--"

/-- A leaf part with a non-text content type and no filename anywhere. -/
def c10Part : List Char := cs "Content-Type: application/octet-stream\n\ndata"

/-- A one-attachment multipart mail whose attachment carries no filename. -/
def c10Eml : List Char :=
  cs "Content-Type: multipart/mixed; boundary=b\n\n--b\nContent-Type: application/octet-stream\n\ndata\n--b--"

def c10EmlExpected : ParsedEmail :=
  { emptyParsed with attachments :=
      [{ filename := cs "attachment_1",
         contentType := cs "application/octet-stream",
         content := [100, 97, 116, 97],
         contentId := none }] }

/-! ### Claims -/

/-- C1 (status: code_bug).  The claim states that `parseEml` never lets an
exception escape, explicitly including filename extraction in
`getFilename`.  In the code, `decodeURIComponent(match[1])` in
`getFilename` has no surrounding try/catch, and it throws a URIError on a
malformed percent escape; the exception propagates through `parseMimePart`
and out of `parseEml`.  This theorem evaluates the model at such an input:
the result is `none`, i.e. an uncaught exception, for every date parser. -/
theorem c1_parseEml_raises_on_malformed_filename_escape :
    ∀ dp : List Char → JSDate, parseEml dp c1Input = none :=
  fun _ => rfl

/-- C4 (status: code_bug).  The claim states that a present but unparseable
Date header yields a `null` date field.  In the code,
`result.date = new Date(dateStr)` never throws — `new Date` returns an
Invalid Date object for unparseable strings — so the catch branch that
would assign `null` is dead, and the date field holds the (possibly
Invalid) Date object, never `null`, whenever the header is present and
non-empty.  The no-throw half of the claim does hold: the model is total
on this input for every date parser `dp`, and the date field is
`some (dp "garbage")`, which is not `none` whatever `dp` returns —
in particular it is the Invalid Date object when `dp` models JS. -/
theorem c4_unparseable_date_gives_invalid_object_not_null :
    ∀ dp : List Char → JSDate,
      parseEml dp c4Input =
        some { emptyParsed with date := some (dp (cs "garbage")), textBody := cs "body" } ∧
      (some (dp (cs "garbage")) : Option JSDate) ≠ none :=
  fun dp => ⟨rfl, by simp⟩

/-- C5 (status: confirmed).  `sanitizeUrl` returns the URL exactly when the
trimmed, lower-cased form starts with one of `http://`, `https://`,
`mailto:`, `cid:`, and the empty string otherwise; in particular
`javascript:alert(1)` and `data:text/html` URLs are rejected while
`https://example.com`, `mailto:a@b.com` and `cid:img1` are accepted. -/
theorem c5_sanitizeUrl_allowlist :
    (∀ url, sanitizeUrl url =
      if startsWithL (toLowerJS (jsTrim url)) (cs "http://") ||
         startsWithL (toLowerJS (jsTrim url)) (cs "https://") ||
         startsWithL (toLowerJS (jsTrim url)) (cs "mailto:") ||
         startsWithL (toLowerJS (jsTrim url)) (cs "cid:")
      then url else []) ∧
    sanitizeUrl (cs "javascript:alert(1)") = [] ∧
    sanitizeUrl (cs "data:text/html,x") = [] ∧
    sanitizeUrl (cs "https://example.com") = cs "https://example.com" ∧
    sanitizeUrl (cs "mailto:a@b.com") = cs "mailto:a@b.com" ∧
    sanitizeUrl (cs "cid:img1") = cs "cid:img1" :=
  ⟨fun _ => rfl, by decide, by decide, by decide, by decide, by decide⟩

/-- C7 (status: confirmed).  The text-mode quoted-printable decoder is the
UTF-8 interpretation of the binary-mode decoder's bytes — in the code the
text decoder literally calls the buffer decoder and then
`buffer.toString('utf-8')` (whose try/catch is dead, as that call cannot
throw) — and both paths share the identical soft-line-break removal and
`=XX` expansion (`removeSoftBreaks` then `qpExpand`).  The concrete
conjuncts exercise a multi-byte escape pair and a soft line break. -/
theorem c7_qp_text_is_utf8_of_binary :
    (∀ s, decodeQuotedPrintable s = utf8Lossy (decodeQuotedPrintableToBuffer s)) ∧
    (∀ s, decodeQuotedPrintableToBuffer s = qpExpand (removeSoftBreaks s)) ∧
    decodeQuotedPrintableToBuffer (cs "caf=C3=A9=\r\n!") = [99, 97, 102, 195, 169, 33] ∧
    decodeQuotedPrintable (cs "caf=C3=A9=\r\n!") = cs "café!" :=
  ⟨fun _ => rfl, fun _ => rfl, by decide, by decide⟩

/-- C8 (status: confirmed).  A comma separates addresses only outside
double quotes and outside angle brackets: the scanner step ignores the
comma as a separator whenever either flag is set (appending it to the
current segment instead), and splits exactly when both are clear; the
quoted example yields the two expected addresses. -/
theorem c8_comma_scoping_in_address_lists :
    parseEmailAddresses (cs "\"Doe, John\" <john@x.com>, jane@y.com") =
      [⟨cs "Doe, John", cs "john@x.com"⟩, ⟨[], cs "jane@y.com"⟩] ∧
    (∀ prev st, st.inQuotes = false → st.inAngleBrackets = false →
      addrScanStep prev ',' st =
        { st with
          addresses :=
            if jsTrim st.current == ([] : List Char) then st.addresses
            else st.addresses ++ [parseEmailAddress st.current],
          current := [] }) ∧
    (∀ prev st, st.inQuotes = true ∨ st.inAngleBrackets = true →
      addrScanStep prev ',' st = { st with current := st.current ++ [','] }) := by
  refine ⟨by decide, ?_, ?_⟩
  · intro prev st h1 h2
    simp [addrScanStep, h1, h2]
  · intro prev st h
    rcases h with h | h <;> simp [addrScanStep, h]

/-- Witness for the hypotheses of `c8_comma_scoping_in_address_lists`. -/
theorem c8_comma_scoping_witness :
    addrScanStep none ',' ⟨cs "a@b", false, false, []⟩ =
      { current := [], inQuotes := false, inAngleBrackets := false,
        addresses := [⟨[], cs "a@b"⟩] } ∧
    addrScanStep none ',' ⟨cs "x", true, false, []⟩ =
      { current := cs "x,", inQuotes := true, inAngleBrackets := false,
        addresses := [] } := by
  constructor
  · rw [c8_comma_scoping_in_address_lists.2.1 none ⟨cs "a@b", false, false, []⟩ rfl rfl]
    decide
  · rw [c8_comma_scoping_in_address_lists.2.2 none ⟨cs "x", true, false, []⟩ (Or.inl rfl)]
    decide

/-- C9 (status: confirmed).  `sanitizeUrl` returns either its argument
completely unchanged or the empty string; the trimmed lower-cased form is
only used for the check, as the concrete conjunct shows on a URL with
surrounding spaces and upper-case letters. -/
theorem c9_sanitizeUrl_identity_or_empty :
    (∀ url, sanitizeUrl url = url ∨ sanitizeUrl url = []) ∧
    sanitizeUrl (cs "  HTTPS://Example.COM/Path  ") = cs "  HTTPS://Example.COM/Path  " := by
  constructor
  · intro url
    by_cases h : isSafeUrl url
    · exact Or.inl (by simp [sanitizeUrl, h])
    · exact Or.inr (by simp [sanitizeUrl, h])
  · decide

/-- C2 counterexample.  This `text/plain` part declares a filename
(`getFilename` returns `x.txt`) and its disposition contains `attachment`,
so the claim's classification says it is added to the attachments
sequence; processing it on an empty accumulator instead consumes it as the
text body and adds no attachment. -/
theorem c2_text_part_with_filename_not_attached :
    getFilename (parseHeaders (cs "Content-Type: text/plain\nContent-Disposition: attachment; filename=x.txt")) =
      some (some (cs "x.txt")) ∧
    containsSub (cs "attachment; filename=x.txt") (cs "attachment") = true ∧
    parseMimePartF c2Part.length c2Part emptyParsed =
      some { emptyParsed with textBody := cs "hello" } := by
  refine ⟨by decide, by decide, by decide⟩

/-- C3 counterexample.  Top level: the segment after the closing boundary
(the epilogue) is parsed — here it sets `htmlBody` — although the claim
says the epilogue is discarded for the outermost split.  Nested level: the
trailing segment of the inner split is discarded even though it is a
non-empty part that is not a `--` stub (`inner-two` never appears),
although the claim says every such segment is parsed recursively. -/
theorem c3_epilogue_policy_counterexample :
    parseEml dpInvalid c3TopInput = some c3TopExpected ∧
    c3TopExpected.htmlBody = cs "epilogue-text" ∧
    parseEml dpInvalid c3NestedInput = some c3NestedExpected ∧
    c3NestedExpected.textBody = cs "inner-one" ∧
    c3NestedExpected.htmlBody = [] := by
  refine ⟨by decide, by decide, by decide, by decide, by decide⟩

/-- C6 counterexample.  The first `text/plain` part encountered decodes to
the empty string, so by the claim `textBody` should hold that empty
content and the later part should be ignored; the code instead lets the
second part win because the guard tests emptiness of the accumulated
`textBody`, not whether a part was already seen. -/
theorem c6_first_part_does_not_always_win :
    decodeContent (cs "====") (cs "base64") = [] ∧
    parseEml dpInvalid c6Input = some { emptyParsed with textBody := cs "second" } := by
  refine ⟨by decide, by decide⟩

/-! ### The walker invariant

Processing any part can only: keep a non-empty `textBody`/`htmlBody`
unchanged, and extend the attachment list by elements whose filenames are
non-empty. -/

def StepInv (r res : ParsedEmail) : Prop :=
  (r.textBody ≠ [] → res.textBody = r.textBody) ∧
  (r.htmlBody ≠ [] → res.htmlBody = r.htmlBody) ∧
  ∃ extra, res.attachments = r.attachments ++ extra ∧ ∀ a ∈ extra, a.filename ≠ []

theorem stepInv_refl (r : ParsedEmail) : StepInv r r :=
  ⟨fun _ => rfl, fun _ => rfl, ⟨[], by simp, by simp⟩⟩

theorem stepInv_trans {r r' res : ParsedEmail} (h1 : StepInv r r') (h2 : StepInv r' res) :
    StepInv r res := by
  obtain ⟨t1, m1, e1, he1, hf1⟩ := h1
  obtain ⟨t2, m2, e2, he2, hf2⟩ := h2
  refine ⟨?_, ?_, e1 ++ e2, ?_, ?_⟩
  · intro h; rw [t2 (by rw [t1 h]; exact h), t1 h]
  · intro h; rw [m2 (by rw [m1 h]; exact h), m1 h]
  · rw [he2, he1, List.append_assoc]
  · intro a ha
    rcases List.mem_append.mp ha with h | h
    · exact hf1 a h
    · exact hf2 a h

theorem cs_attachment_append_ne_nil (l : List Char) : cs "attachment_" ++ l ≠ [] := by
  intro h
  have h2 : (cs "attachment_" ++ l).length = 0 := by rw [h]; rfl
  rw [List.length_append] at h2
  have h3 : (cs "attachment_").length = 11 := by decide
  omega

theorem attachmentName_ne_nil (fnOpt : Option (List Char)) (count : Nat) :
    attachmentName fnOpt count ≠ [] := by
  cases fnOpt with
  | none => exact cs_attachment_append_ne_nil _
  | some f =>
    simp only [attachmentName]
    by_cases hf : (f == ([] : List Char)) = true
    · rw [if_pos hf]; exact cs_attachment_append_ne_nil _
    · rw [if_neg hf]
      intro h
      exact hf (by rw [h]; rfl)

theorem foldl_partsStep_none (fuel : Nat) (segs : List (List Char)) :
    segs.foldl (partsStep fuel) none = none := by
  induction segs with
  | nil => rfl
  | cons s t ih => rw [List.foldl_cons]; exact ih

theorem foldl_partsStep_stepInv (fuel : Nat)
    (hp : ∀ pt r res, parseMimePartF fuel pt r = some res → StepInv r res) :
    ∀ (segs : List (List Char)) (r res : ParsedEmail),
      segs.foldl (partsStep fuel) (some r) = some res → StepInv r res := by
  intro segs
  induction segs with
  | nil =>
    intro r res h
    rw [List.foldl_nil] at h
    injection h with h
    exact h ▸ stepInv_refl r
  | cons s t ih =>
    intro r res h
    rw [List.foldl_cons] at h
    by_cases hc : (!(jsTrim s == ([] : List Char)) && !(jsTrim s == cs "--")) = true
    · have hstep : partsStep fuel (some r) s = parseMimePartF fuel (jsTrim s) r := by
        simp only [partsStep, partsStepG]
        rw [if_pos hc]
      rw [hstep] at h
      cases hpm : parseMimePartF fuel (jsTrim s) r with
      | none =>
        rw [hpm, foldl_partsStep_none] at h
        exact absurd h (by simp)
      | some r' =>
        rw [hpm] at h
        exact stepInv_trans (hp (jsTrim s) r r' hpm) (ih r' res h)
    · have hstep : partsStep fuel (some r) s = some r := by
        simp only [partsStep, partsStepG]
        rw [if_neg hc]
      rw [hstep] at h
      exact ih r res h

theorem parseMimePartF_stepInv :
    ∀ (fuel : Nat) (pt : List Char) (r res : ParsedEmail),
      parseMimePartF fuel pt r = some res → StepInv r res := by
  intro fuel
  induction fuel with
  | zero =>
    intro pt r res h
    unfold parseMimePartF at h
    injection h with h
    exact h ▸ stepInv_refl r
  | succ f ih =>
    intro pt r res h
    rcases hsb : splitHeaderBody pt with _ | ⟨ht, bt⟩
    · simp only [parseMimePartF, hsb] at h
      injection h with h
      exact h ▸ stepInv_refl r
    · simp only [parseMimePartF, hsb] at h
      split at h
      · -- multipart branch
        split at h
        · -- no boundary
          injection h with h
          exact h ▸ stepInv_refl r
        · -- boundary found: the segment loop
          exact foldl_partsStep_stepInv f ih _ r res h
      · -- not multipart
        split at h
        · -- text/plain
          injection h with h
          by_cases htb : (r.textBody == ([] : List Char)) = true
          · rw [if_pos htb] at h
            subst h
            refine ⟨?_, fun _ => rfl, ⟨[], by simp, by simp⟩⟩
            intro hne
            exact absurd (by simpa using htb) hne
          · rw [if_neg htb] at h
            subst h
            exact stepInv_refl r
        · split at h
          · -- text/html
            injection h with h
            by_cases hhb : (r.htmlBody == ([] : List Char)) = true
            · rw [if_pos hhb] at h
              subst h
              refine ⟨fun _ => rfl, ?_, ⟨[], by simp, by simp⟩⟩
              intro hne
              exact absurd (by simpa using hhb) hne
            · rw [if_neg hhb] at h
              subst h
              exact stepInv_refl r
          · -- leaf
            split at h
            · exact Option.noConfusion h
            · split at h
              · -- classified as attachment
                injection h with h
                subst h
                refine ⟨fun _ => rfl, fun _ => rfl, ⟨_, rfl, ?_⟩⟩
                intro a ha
                rw [List.mem_singleton] at ha
                rw [ha]
                exact attachmentName_ne_nil _ _
              · -- discarded
                injection h with h
                subst h
                exact stepInv_refl r

/-- C2 (status: corrected), amended claim.  For a leaf part (non-multipart
content type) with a header/body separator, whose processing returns
normally: an attachment is appended iff the content type is neither
`text/plain` nor `text/html` (those are always consumed as bodies, even
when they declare a filename or an attachment disposition) and the JS
condition holds — a truthy (non-empty) filename, or a disposition
containing the substring `attachment`, or a content type starting with
neither `text/` nor `multipart/`. -/
theorem c2_amended_leaf_attachment_classification :
    ∀ (fuel : Nat) (pt : List Char) (r res : ParsedEmail) (ht bt : List Char),
      splitHeaderBody pt = some (ht, bt) →
      startsWithL (getContentType (parseHeaders ht)) (cs "multipart/") = false →
      parseMimePartF (fuel + 1) pt r = some res →
      ((∃ a, res.attachments = r.attachments ++ [a]) ↔
        getContentType (parseHeaders ht) ≠ cs "text/plain" ∧
        getContentType (parseHeaders ht) ≠ cs "text/html" ∧
        ∃ fnOpt, getFilename (parseHeaders ht) = some fnOpt ∧
          isAttachmentPart fnOpt
            ((hget (parseHeaders ht) (cs "content-disposition")).getD [])
            (getContentType (parseHeaders ht)) = true) := by
  intro fuel pt r res ht bt hsb hmp h
  simp only [parseMimePartF, hsb] at h
  rw [if_neg (by rw [hmp]; exact Bool.false_ne_true)] at h
  by_cases htp : (getContentType (parseHeaders ht) == cs "text/plain") = true
  · rw [if_pos htp] at h
    injection h with h
    constructor
    · intro ⟨a, ha⟩
      exfalso
      have hlen := congrArg List.length ha
      have : res.attachments = r.attachments := by
        rw [← h]
        split <;> rfl
      rw [this] at hlen
      simp [List.length_append] at hlen
    · intro ⟨hne, _⟩
      exact absurd (by simpa using htp) hne
  · rw [if_neg htp] at h
    by_cases hth : (getContentType (parseHeaders ht) == cs "text/html") = true
    · rw [if_pos hth] at h
      injection h with h
      constructor
      · intro ⟨a, ha⟩
        exfalso
        have hlen := congrArg List.length ha
        have : res.attachments = r.attachments := by
          rw [← h]
          split <;> rfl
        rw [this] at hlen
        simp [List.length_append] at hlen
      · intro ⟨_, hne, _⟩
        exact absurd (by simpa using hth) hne
    · rw [if_neg hth] at h
      split at h
      · exact Option.noConfusion h
      · rename_i fnOpt hgf
        by_cases hatt : isAttachmentPart fnOpt
            ((hget (parseHeaders ht) (cs "content-disposition")).getD [])
            (getContentType (parseHeaders ht)) = true
        · rw [if_pos hatt] at h
          injection h with h
          subst h
          constructor
          · intro _
            exact ⟨by simpa using htp, by simpa using hth, fnOpt, hgf, hatt⟩
          · intro _
            exact ⟨_, rfl⟩
        · rw [if_neg hatt] at h
          injection h with h
          subst h
          constructor
          · intro ⟨a, ha⟩
            exfalso
            have hlen := congrArg List.length ha
            simp [List.length_append] at hlen
          · intro ⟨_, _, fnOpt', hgf', hatt'⟩
            rw [hgf] at hgf'
            injection hgf' with hgf'
            rw [hgf'] at hatt
            exact absurd hatt' hatt

/-- Witness for the hypotheses of `c2_amended_leaf_attachment_classification`,
at the `text/plain` part of the C2 counterexample. -/
theorem c2_amended_classification_witness :
    ((∃ a, ({ emptyParsed with textBody := cs "hello" } : ParsedEmail).attachments =
        emptyParsed.attachments ++ [a]) ↔
      (getContentType (parseHeaders (cs "Content-Type: text/plain\nContent-Disposition: attachment; filename=x.txt")) ≠ cs "text/plain" ∧
       getContentType (parseHeaders (cs "Content-Type: text/plain\nContent-Disposition: attachment; filename=x.txt")) ≠ cs "text/html" ∧
       ∃ fnOpt, getFilename (parseHeaders (cs "Content-Type: text/plain\nContent-Disposition: attachment; filename=x.txt")) = some fnOpt ∧
         isAttachmentPart fnOpt
           ((hget (parseHeaders (cs "Content-Type: text/plain\nContent-Disposition: attachment; filename=x.txt")) (cs "content-disposition")).getD [])
           (getContentType (parseHeaders (cs "Content-Type: text/plain\nContent-Disposition: attachment; filename=x.txt"))) = true)) ∧
    ((∃ a, ({ emptyParsed with textBody := cs "hello" } : ParsedEmail).attachments =
        emptyParsed.attachments ++ [a]) ↔
      (getContentType (parseHeaders (cs "Content-Type:")) ≠ cs "text/plain" ∧
       getContentType (parseHeaders (cs "Content-Type:")) ≠ cs "text/html" ∧
       ∃ fnOpt, getFilename (parseHeaders (cs "Content-Type:")) = some fnOpt ∧
         isAttachmentPart fnOpt
           ((hget (parseHeaders (cs "Content-Type:")) (cs "content-disposition")).getD [])
           (getContentType (parseHeaders (cs "Content-Type:"))) = true)) :=
  ⟨c2_amended_leaf_attachment_classification 0 c2Part emptyParsed
    { emptyParsed with textBody := cs "hello" }
    (cs "Content-Type: text/plain\nContent-Disposition: attachment; filename=x.txt")
    (cs "hello") (by decide) (by decide) (by decide),
   -- a part with a present-but-empty Content-Type value is text/plain by the
   -- JS `||` fallback and is likewise consumed as a body, not attached
   c2_amended_leaf_attachment_classification 0 (cs "Content-Type:\n\nhello")
    emptyParsed { emptyParsed with textBody := cs "hello" }
    (cs "Content-Type:") (cs "hello") (by decide) (by decide) (by decide)⟩

/-- C3 (status: corrected), amended claim.  The segment at index 0 (the
preamble) is discarded at every level.  The trailing segment is discarded
for nested (non-top-level) splits only; the top-level split in `parseEml`
keeps it, so a non-empty epilogue is parsed there like any other segment.
Every considered segment is skipped when its trim is empty or the literal
`--`, and parsed recursively otherwise. -/
theorem c3_amended_segment_policy :
    (∀ (fuel : Nat) (pt : List Char) (r : ParsedEmail) (ht bt boundary : List Char),
      splitHeaderBody pt = some (ht, bt) →
      startsWithL (getContentType (parseHeaders ht)) (cs "multipart/") = true →
      extractBoundary ((hget (parseHeaders ht) (cs "content-type")).getD []) = some boundary →
      parseMimePartF (fuel + 1) pt r =
        (((splitOnBoundary boundary bt).drop 1).dropLast).foldl (partsStep fuel) (some r)) ∧
    (∀ (dp : List Char → JSDate) (content : List Char) (ht bt boundary : List Char),
      splitHeaderBody content = some (ht, bt) →
      startsWithL (getContentType (parseHeaders ht)) (cs "multipart/") = true →
      extractBoundary ((hget (parseHeaders ht) (cs "content-type")).getD []) = some boundary →
      parseEml dp content =
        ((splitOnBoundary boundary bt).drop 1).foldl (partsStep content.length)
          (some (topLevelResult dp (parseHeaders ht)))) ∧
    (∀ (fuel : Nat) (seg : List Char) (r : ParsedEmail),
      jsTrim seg = [] ∨ jsTrim seg = cs "--" →
      partsStep fuel (some r) seg = some r) ∧
    (∀ (fuel : Nat) (seg : List Char) (r : ParsedEmail),
      ¬(jsTrim seg = [] ∨ jsTrim seg = cs "--") →
      partsStep fuel (some r) seg = parseMimePartF fuel (jsTrim seg) r) := by
  refine ⟨?_, ?_, ?_, ?_⟩
  · intro fuel pt r ht bt boundary hsb hmp hb
    simp only [parseMimePartF, hsb]
    rw [if_pos hmp, hb]
    rfl
  · intro dp content ht bt boundary hsb hmp hb
    simp only [parseEml, hsb]
    rw [if_pos hmp, hb]
  · intro fuel seg r hskip
    simp only [partsStep, partsStepG]
    rw [if_neg]
    intro hc
    rcases hskip with hs | hs <;> rw [hs] at hc <;> simp at hc
  · intro fuel seg r hgo
    push_neg at hgo
    simp only [partsStep, partsStepG]
    rw [if_pos]
    rw [Bool.and_eq_true, Bool.not_eq_true', Bool.not_eq_true']
    constructor
    · exact beq_eq_false_iff_ne.mpr hgo.1
    · exact beq_eq_false_iff_ne.mpr hgo.2

/-- Witness for the hypotheses of `c3_amended_segment_policy`. -/
theorem c3_amended_segment_policy_witness :
    parseMimePartF 1 (cs "Content-Type: multipart/mixed; boundary=b\n\nX") emptyParsed =
      (((splitOnBoundary (cs "b") (cs "X")).drop 1).dropLast).foldl (partsStep 0)
        (some emptyParsed) ∧
    parseEml dpInvalid c3TopInput =
      ((splitOnBoundary (cs "b")
        (cs "--b\nContent-Type: text/plain\n\nfirst\n--b--\nContent-Type: text/html\n\nepilogue-text")).drop 1).foldl
        (partsStep c3TopInput.length)
        (some (topLevelResult dpInvalid
          (parseHeaders (cs "Content-Type: multipart/mixed; boundary=b")))) ∧
    partsStep 0 (some emptyParsed) (cs "  ") = some emptyParsed ∧
    partsStep 0 (some emptyParsed) (cs "--") = some emptyParsed ∧
    partsStep 0 (some emptyParsed) (cs "Q") = parseMimePartF 0 (cs "Q") emptyParsed :=
  ⟨c3_amended_segment_policy.1 0 (cs "Content-Type: multipart/mixed; boundary=b\n\nX")
      emptyParsed (cs "Content-Type: multipart/mixed; boundary=b") (cs "X") (cs "b")
      (by decide) (by decide) (by decide),
   c3_amended_segment_policy.2.1 dpInvalid c3TopInput
      (cs "Content-Type: multipart/mixed; boundary=b")
      (cs "--b\nContent-Type: text/plain\n\nfirst\n--b--\nContent-Type: text/html\n\nepilogue-text")
      (cs "b") (by decide) (by decide) (by decide),
   c3_amended_segment_policy.2.2.1 0 (cs "  ") emptyParsed (Or.inl (by decide)),
   c3_amended_segment_policy.2.2.1 0 (cs "--") emptyParsed (Or.inr (by decide)),
   c3_amended_segment_policy.2.2.2 0 (cs "Q") emptyParsed (by decide)⟩

/-- C6 (status: corrected), amended claim.  `textBody` (resp. `htmlBody`)
holds the decoded content of the first `text/plain` (resp. `text/html`)
part whose decoded content is non-empty: once the field is non-empty no
later part changes it, and a `text/plain` (resp. `text/html`) leaf part
reached while the field is still empty overwrites it with its decoded
content — so a part that decodes to the empty string leaves the field
open for a later part. -/
theorem c6_amended_first_nonempty_decoded_part_wins :
    (∀ (fuel : Nat) (pt : List Char) (r res : ParsedEmail),
      parseMimePartF fuel pt r = some res →
      (r.textBody ≠ [] → res.textBody = r.textBody) ∧
      (r.htmlBody ≠ [] → res.htmlBody = r.htmlBody)) ∧
    (∀ (fuel : Nat) (pt : List Char) (r : ParsedEmail) (ht bt : List Char),
      splitHeaderBody pt = some (ht, bt) →
      getContentType (parseHeaders ht) = cs "text/plain" →
      r.textBody = [] →
      parseMimePartF (fuel + 1) pt r =
        some { r with textBody := decodeContent bt (getEncoding (parseHeaders ht)) }) ∧
    (∀ (fuel : Nat) (pt : List Char) (r : ParsedEmail) (ht bt : List Char),
      splitHeaderBody pt = some (ht, bt) →
      getContentType (parseHeaders ht) = cs "text/html" →
      r.htmlBody = [] →
      parseMimePartF (fuel + 1) pt r =
        some { r with htmlBody := decodeContent bt (getEncoding (parseHeaders ht)) }) := by
  refine ⟨?_, ?_, ?_⟩
  · intro fuel pt r res h
    exact ⟨(parseMimePartF_stepInv fuel pt r res h).1,
      (parseMimePartF_stepInv fuel pt r res h).2.1⟩
  · intro fuel pt r ht bt hsb hct hr
    simp only [parseMimePartF, hsb]
    rw [hct]
    rw [if_neg (by decide), if_pos (by decide), if_pos (by rw [hr]; rfl)]
  · intro fuel pt r ht bt hsb hct hr
    simp only [parseMimePartF, hsb]
    rw [hct]
    rw [if_neg (by decide), if_neg (by decide), if_pos (by decide),
      if_pos (by rw [hr]; rfl)]

/-- Witness for the hypotheses of
`c6_amended_first_nonempty_decoded_part_wins`. -/
theorem c6_amended_witness :
    ({ emptyParsed with textBody := cs "keep" } : ParsedEmail).textBody = cs "keep" ∧
    parseMimePartF 1 (cs "Content-Type: text/plain\n\nhi") emptyParsed =
      some { emptyParsed with
        textBody := decodeContent (cs "hi")
          (getEncoding (parseHeaders (cs "Content-Type: text/plain"))) } ∧
    parseMimePartF 1 (cs "Content-Type: text/html\n\n<p>hi</p>") emptyParsed =
      some { emptyParsed with
        htmlBody := decodeContent (cs "<p>hi</p>")
          (getEncoding (parseHeaders (cs "Content-Type: text/html"))) } ∧
    parseMimePartF 1 (cs "Content-Type:\n\nhello") emptyParsed =
      some { emptyParsed with
        textBody := decodeContent (cs "hello")
          (getEncoding (parseHeaders (cs "Content-Type:"))) } :=
  ⟨(c6_amended_first_nonempty_decoded_part_wins.1 1 (cs "Content-Type: text/plain\n\nbye")
      { emptyParsed with textBody := cs "keep" }
      { emptyParsed with textBody := cs "keep" } (by decide)).1 (by decide),
   c6_amended_first_nonempty_decoded_part_wins.2.1 0 (cs "Content-Type: text/plain\n\nhi")
      emptyParsed (cs "Content-Type: text/plain") (cs "hi") (by decide) (by decide) rfl,
   c6_amended_first_nonempty_decoded_part_wins.2.2 0 (cs "Content-Type: text/html\n\n<p>hi</p>")
      emptyParsed (cs "Content-Type: text/html") (cs "<p>hi</p>") (by decide) (by decide) rfl,
   -- a present-but-empty Content-Type value is text/plain by the JS `||`
   -- fallback, so such a part is covered by the text/plain clause as well
   c6_amended_first_nonempty_decoded_part_wins.2.1 0 (cs "Content-Type:\n\nhello")
      emptyParsed (cs "Content-Type:") (cs "hello") (by decide) (by decide) rfl⟩

/-- C10 (status: confirmed).  Every attachment of a successfully parsed
email has a non-empty filename, and a leaf part classified as an
attachment without a truthy declared filename (no filename, or one that
decodes to the empty string, which JS treats as falsy) is appended with
the generated name `attachment_k`, where `k` is its 1-based position in
the attachments sequence at the moment of the append. -/
theorem c10_attachment_names :
    (∀ (dp : List Char → JSDate) (content : List Char) (res : ParsedEmail),
      parseEml dp content = some res →
      ∀ a ∈ res.attachments, a.filename ≠ []) ∧
    (∀ (fuel : Nat) (pt : List Char) (r res : ParsedEmail) (ht bt : List Char)
        (fnOpt : Option (List Char)),
      splitHeaderBody pt = some (ht, bt) →
      startsWithL (getContentType (parseHeaders ht)) (cs "multipart/") = false →
      (getContentType (parseHeaders ht) == cs "text/plain") = false →
      (getContentType (parseHeaders ht) == cs "text/html") = false →
      getFilename (parseHeaders ht) = some fnOpt →
      (fnOpt = none ∨ fnOpt = some []) →
      isAttachmentPart fnOpt
        ((hget (parseHeaders ht) (cs "content-disposition")).getD [])
        (getContentType (parseHeaders ht)) = true →
      parseMimePartF (fuel + 1) pt r = some res →
      ∃ a, res.attachments = r.attachments ++ [a] ∧
        a.filename = cs "attachment_" ++ (Nat.repr (r.attachments.length + 1)).toList) := by
  constructor
  · intro dp content res h
    rcases hsb : splitHeaderBody content with _ | ⟨ht, bt⟩
    · simp only [parseEml, hsb] at h
      injection h with h
      rw [← h]
      intro a ha
      simp [emptyParsed] at ha
    · simp only [parseEml, hsb] at h
      split at h
      · split at h
        · injection h with h
          rw [← h]
          intro a ha
          simp [topLevelResult] at ha
        · have hinv := foldl_partsStep_stepInv content.length
            (parseMimePartF_stepInv content.length) _ _ _ h
          obtain ⟨_, _, extra, he, hf⟩ := hinv
          intro a ha
          rw [he] at ha
          simp only [topLevelResult, List.nil_append] at ha
          exact hf a ha
      · split at h
        · injection h with h
          rw [← h]
          intro a ha
          simp [topLevelResult] at ha
        · split at h
          · injection h with h
            rw [← h]
            intro a ha
            simp [topLevelResult] at ha
          · injection h with h
            rw [← h]
            intro a ha
            simp [topLevelResult] at ha
  · intro fuel pt r res ht bt fnOpt hsb hmp htp hth hgf hfn hatt h
    simp only [parseMimePartF, hsb] at h
    rw [if_neg (by rw [hmp]; exact Bool.false_ne_true)] at h
    rw [if_neg (by rw [htp]; exact Bool.false_ne_true)] at h
    rw [if_neg (by rw [hth]; exact Bool.false_ne_true)] at h
    split at h
    · exact Option.noConfusion h
    · rename_i fnOpt' hgf'
      rw [hgf] at hgf'
      injection hgf' with he
      subst he
      rw [if_pos hatt] at h
      injection h with h
      subst h
      refine ⟨_, rfl, ?_⟩
      rcases hfn with hf | hf <;> rw [hf] <;> rfl

/-- Witness for the hypotheses of `c10_attachment_names`. -/
theorem c10_attachment_names_witness :
    (∀ a ∈ c10EmlExpected.attachments, a.filename ≠ []) ∧
    (∃ a, c10EmlExpected.attachments = emptyParsed.attachments ++ [a] ∧
      a.filename = cs "attachment_" ++ (Nat.repr (emptyParsed.attachments.length + 1)).toList) :=
  ⟨c10_attachment_names.1 dpInvalid c10Eml c10EmlExpected (by decide),
   c10_attachment_names.2 0 c10Part emptyParsed c10EmlExpected
      (cs "Content-Type: application/octet-stream") (cs "data") none
      (by decide) (by decide) (by decide) (by decide) (by decide) (Or.inl rfl)
      (by decide) (by decide)⟩

end Eml
